import Mathlib

/-
Verification of the HR data-processing pipeline (scripts/data_processor.py).

The pipeline operates on an in-memory tabular dataset.  We embed a dataset
as an ordered list of rows; a row is an association list from column name
to cell value.  A cell value is a string, a rational number, or the
missing-value marker (pandas NaN).  Numeric cells are modelled with exact
rationals: every arithmetic operation the pipeline performs (median,
linear-quantile interpolation, mean of two middle elements, absolute
value) is exact on the rationals, so they faithfully model the float
computations on the inputs exercised here.  Fallible stages return Except String Dataset,
mirroring the Python exceptions (KeyError, ValueError) that pandas raises.
-/

namespace HRProc

/- ### Exact rational numbers, computable by the kernel

The pipeline's numeric cells and statistics are exact rationals.  The
library Rat cannot be evaluated inside proofs (its normalization runs the
well-founded Nat.gcd, which kernel reduction cannot unfold), so we use our
own fraction type whose gcd recurses structurally on a fuel bound.  Every
fraction the operations build is reduced with a positive denominator, so
structural equality coincides with numeric equality on all values the
pipeline manipulates. -/

/-- Euclid's algorithm with an explicit fuel bound; the first argument
    strictly decreases, so fuel a + 1 computes gcd a b. -/
def gcdFuel : Nat → Nat → Nat → Nat
  | 0, _, b => b
  | fuel + 1, a, b => if a = 0 then b else gcdFuel fuel (b % a) a

/-- Greatest common divisor (kernel-reducible). -/
def fracGcd (a b : Nat) : Nat := gcdFuel (a + 1) a b

/-- An exact rational: numerator and positive denominator, kept reduced by
    the smart constructor Frac.norm. -/
structure Frac where
  num : Int
  den : Nat
deriving DecidableEq, Repr

/-- Reduce a fraction to lowest terms (d is expected positive). -/
def Frac.norm (n : Int) (d : Nat) : Frac :=
  let g := fracGcd n.natAbs d
  if g = 0 then ⟨0, 1⟩ else ⟨n.tdiv (g : Int), d / g⟩

instance : OfNat Frac n := ⟨⟨(n : Int), 1⟩⟩

/-- Embed a natural number. -/
def Frac.ofNat (n : Nat) : Frac := ⟨(n : Int), 1⟩

def Frac.add (a b : Frac) : Frac :=
  Frac.norm (a.num * (b.den : Int) + b.num * (a.den : Int)) (a.den * b.den)

def Frac.sub (a b : Frac) : Frac :=
  Frac.norm (a.num * (b.den : Int) - b.num * (a.den : Int)) (a.den * b.den)

def Frac.mul (a b : Frac) : Frac :=
  Frac.norm (a.num * b.num) (a.den * b.den)

def Frac.div (a b : Frac) : Frac :=
  if 0 ≤ b.num then Frac.norm (a.num * (b.den : Int)) (a.den * b.num.natAbs)
  else Frac.norm (-(a.num * (b.den : Int))) (a.den * b.num.natAbs)

/-- Absolute value. -/
def Frac.abs (a : Frac) : Frac := ⟨(a.num.natAbs : Int), a.den⟩

/-- Floor, as an integer (fdiv rounds toward negative infinity). -/
def Frac.floor (a : Frac) : Int := a.num.fdiv (a.den : Int)

def Frac.le (a b : Frac) : Prop := a.num * (b.den : Int) ≤ b.num * (a.den : Int)

def Frac.lt (a b : Frac) : Prop := a.num * (b.den : Int) < b.num * (a.den : Int)

instance : Add Frac := ⟨Frac.add⟩
instance : Sub Frac := ⟨Frac.sub⟩
instance : Mul Frac := ⟨Frac.mul⟩
instance : Div Frac := ⟨Frac.div⟩
instance : LE Frac := ⟨Frac.le⟩
instance : LT Frac := ⟨Frac.lt⟩

instance (a b : Frac) : Decidable (a ≤ b) :=
  inferInstanceAs (Decidable (a.num * (b.den : Int) ≤ b.num * (a.den : Int)))

instance (a b : Frac) : Decidable (a < b) :=
  inferInstanceAs (Decidable (a.num * (b.den : Int) < b.num * (a.den : Int)))

inductive Value where
  | str : String → Value
  | num : Frac → Value
  | na  : Value
deriving DecidableEq, Repr

abbrev Row := List (String × Value)

structure Dataset where
  cols : List String
  rows : List Row
deriving DecidableEq, Repr

/-- Value of column c in a row; a row without the key behaves as missing. -/
def rowGet (r : Row) (c : String) : Value :=
  match r with
  | [] => Value.na
  | (k, v) :: r' => if k = c then v else rowGet r' c

/-- Assign column c of a row (replace the first occurrence, else append),
    modelling a pandas column assignment restricted to one row. -/
def setVal (r : Row) (c : String) (v : Value) : Row :=
  match r with
  | [] => [(c, v)]
  | (k, w) :: r' => if k = c then (k, v) :: r' else (k, w) :: setVal r' c v

/-- The values of a column, in row order ([] when the column is absent). -/
def colVals (d : Dataset) (c : String) : List Value :=
  if c ∈ d.cols then d.rows.map (fun r => rowGet r c) else []

/-- Number of missing cells in a list of values (pandas isnull().sum()). -/
def countNa (vs : List Value) : Nat :=
  vs.countP (fun v => v == Value.na)

/-- Apply f to every cell of column c (pandas df[c] = df[c].map-like). -/
def mapCol (d : Dataset) (c : String) (f : Value → Value) : Dataset :=
  { d with rows := d.rows.map (fun r => setVal r c (f (rowGet r c))) }

/- ### Deduplication (pandas drop_duplicates, keep the first occurrence) -/

/-- Pass over the list keeping each element not seen before. -/
def dropDupAux [DecidableEq α] (seen : List α) : List α → List α
  | [] => []
  | x :: xs => if x ∈ seen then dropDupAux seen xs else x :: dropDupAux (x :: seen) xs

/-- pandas DataFrame.drop_duplicates with keep set to first. -/
def dropDupList [DecidableEq α] (l : List α) : List α :=
  dropDupAux [] l

/-- Specification-style restatement of deduplication, following the spec
    sentence: the first occurrence of each distinct row is retained and the
    rows that duplicate an earlier row are removed. -/
def keepFirstOccurrences [DecidableEq α] : List α → List α
  | [] => []
  | x :: xs => x :: keepFirstOccurrences (xs.filter (fun y => !(y == x)))
termination_by l => l.length
decreasing_by
  simp only [List.length_cons]
  exact Nat.lt_succ_of_le (List.length_filter_le _ _)

/-- Stage 3 of the pipeline: remove exact duplicate rows. -/
def remove_duplicates (d : Dataset) : Dataset :=
  { d with rows := dropDupList d.rows }

/-- Does the dataset contain a row that exactly duplicates an earlier one
    (df.duplicated().sum() positive)? -/
def hasDuplicateRows (d : Dataset) : Bool :=
  decide ((dropDupList d.rows).length < d.rows.length)

/- ### Assessment stage -/

/-- df.duplicated().sum(): rows that are exact copies of an earlier row. -/
def duplicateCount (d : Dataset) : Nat :=
  d.rows.length - (dropDupList d.rows).length

/-- One log line per column that has missing values.  The percentage that
    the Python message carries is presentational, the entry records the
    column and its missing count. -/
def missingReport (d : Dataset) : List String :=
  d.cols.filterMap (fun c =>
    let m := countNa (colVals d c)
    if 0 < m then some ("  - " ++ c ++ ": " ++ toString m ++ " missing") else none)

/-- Stage 2 of the pipeline: data_quality_assessment.  It only reads the
    dataframe (duplicated().sum() and isnull().sum()) and appends to the
    processing log. -/
def data_quality_assessment (d : Dataset) (log : List String) : Dataset × List String :=
  let entries :=
    ("Found " ++ toString (duplicateCount d) ++ " duplicate rows") ::
      (if missingReport d = [] then [] else "Missing values found:" :: missingReport d)
  (d, log ++ entries)

/- ### Impute stage (handle_missing_values) -/

/-- Insert a rational into a sorted list, keeping it sorted. -/
def insertSorted (q : Frac) : List Frac → List Frac
  | [] => [q]
  | x :: xs => if q ≤ x then q :: x :: xs else x :: insertSorted q xs

/-- Sort a list of rationals ascending. -/
def sortRats (l : List Frac) : List Frac :=
  l.foldr insertSorted []

/-- pandas Series.median over the non-missing values already extracted:
    middle element for odd length, mean of the two middles for even length,
    none for the empty list (median of an all-missing series is NaN). -/
def medianRats (l : List Frac) : Option Frac :=
  let s := sortRats l
  let n := s.length
  if n = 0 then none
  else if n % 2 = 1 then some (s.getD (n / 2) 0)
  else some ((s.getD (n / 2 - 1) 0 + s.getD (n / 2) 0) / 2)

/-- Numeric content of a cell, none for strings and missing cells. -/
def valToNum : Value → Option Frac
  | Value.num q => some q
  | _ => none

/-- The MonthlyIncome value the groupby-transform assigns to row r:
    rows whose JobRole key is missing are excluded from every group, so the
    reindexed transform hands them NaN; a present income is kept; a missing
    income becomes the median of the non-missing incomes of the rows that
    share the JobRole key, or stays missing when that median is undefined. -/
def imputedIncome (d : Dataset) (r : Row) : Value :=
  if rowGet r "JobRole" = Value.na then Value.na
  else if rowGet r "MonthlyIncome" = Value.na then
    match medianRats (((d.rows.filter
        (fun r2 => rowGet r2 "JobRole" == rowGet r "JobRole")).map
        (fun r2 => rowGet r2 "MonthlyIncome")).filterMap valToNum) with
    | some m => Value.num m
    | none => Value.na
  else rowGet r "MonthlyIncome"

/-- df.groupby(JobRole)[MonthlyIncome].transform(x.fillna(x.median)),
    assigned back to the MonthlyIncome column. -/
def fillIncomeByRole (d : Dataset) : Dataset :=
  { d with rows := d.rows.map (fun r => setVal r "MonthlyIncome" (imputedIncome d r)) }

/-- Ordering used to pick the smallest of the tied most-frequent values,
    matching the ascending sort of Series.mode on a homogeneous column. -/
def valueLtB : Value → Value → Bool
  | Value.num a, Value.num b => decide (a < b)
  | Value.str a, Value.str b => decide (a < b)
  | Value.num _, Value.str _ => true
  | _, _ => false

/-- Series.mode()[0]: the least among the most frequent non-missing values,
    none when every value is missing (mode() is then empty and the [0]
    lookup fails). -/
def mode0 (vs : List Value) : Option Value :=
  let xs := vs.filter (fun v => !(v == Value.na))
  match dropDupList xs with
  | [] => none
  | c :: cs =>
    some (cs.foldl (fun best v =>
      if xs.count best < xs.count v then v
      else if xs.count best = xs.count v ∧ valueLtB v best = true then v
      else best) c)

/-- Series.fillna with a constant. -/
def fillNaWith (m : Value) (v : Value) : Value :=
  if v = Value.na then m else v

/-- First half of handle_missing_values: the MonthlyIncome branch.  The
    guard checks only that MonthlyIncome exists; when it has missing values
    the groupby on JobRole is reached unconditionally and raises KeyError
    if that column is absent. -/
def imputeIncome (d : Dataset) : Except String Dataset :=
  if "MonthlyIncome" ∈ d.cols then
    if 0 < countNa (colVals d "MonthlyIncome") then
      if "JobRole" ∈ d.cols then Except.ok (fillIncomeByRole d)
      else Except.error "KeyError: JobRole"
    else Except.ok d
  else Except.ok d

/-- Second half of handle_missing_values: the JobSatisfaction branch.
    mode()[0] on an all-missing column indexes an empty series and raises. -/
def imputeSatisfaction (d : Dataset) : Except String Dataset :=
  if "JobSatisfaction" ∈ d.cols then
    if 0 < countNa (colVals d "JobSatisfaction") then
      match mode0 (colVals d "JobSatisfaction") with
      | some m => Except.ok (mapCol d "JobSatisfaction" (fillNaWith m))
      | none => Except.error "KeyError: 0"
    else Except.ok d
  else Except.ok d

/-- Stage 4 of the pipeline: handle_missing_values. -/
def handle_missing_values (d : Dataset) : Except String Dataset :=
  match imputeIncome d with
  | Except.ok d2 => imputeSatisfaction d2
  | Except.error e => Except.error e

/- ### Standardize stage -/

/-- The explicit Department mapping table of the source. -/
def dept_mapping : List (String × String) :=
  [("SALES", "Sales"),
   ("sales", "Sales"),
   ("RESEARCH & DEVELOPMENT", "Research & Development"),
   ("research & development", "Research & Development"),
   ("HUMAN RESOURCES", "Human Resources"),
   ("human resources", "Human Resources")]

/-- The Gender mapping table of the source. -/
def gender_mapping : List (String × String) :=
  [("M", "Male"), ("F", "Female"), ("m", "Male"), ("f", "Female")]

/-- Series.replace with a string-to-string dictionary: a string cell found
    in the table becomes its canonical label, every other cell is kept. -/
def applyMapping (m : List (String × String)) (v : Value) : Value :=
  match v with
  | Value.str s =>
    Value.str (match m.lookup s with
      | some t => t
      | none => s)
  | v => v

/-- Department substep of standardize_data. -/
def stdDept (d : Dataset) : Dataset :=
  if "Department" ∈ d.cols then mapCol d "Department" (applyMapping dept_mapping) else d

/-- Gender substep of standardize_data. -/
def stdGender (d : Dataset) : Dataset :=
  if "Gender" ∈ d.cols then mapCol d "Gender" (applyMapping gender_mapping) else d

/-- (df[MonthlyIncome] < 0).sum(); a NaN comparison is False. -/
def negIncomeCount (d : Dataset) : Nat :=
  (colVals d "MonthlyIncome").countP (fun v =>
    match v with
    | Value.num q => decide (q < 0)
    | _ => false)

/-- Series.abs on a cell (NaN stays NaN; the column is numeric). -/
def absVal : Value → Value
  | Value.num q => Value.num (Frac.abs q)
  | v => v

/-- MonthlyIncome sign-fix substep of standardize_data. -/
def stdIncome (d : Dataset) : Dataset :=
  if "MonthlyIncome" ∈ d.cols then
    if 0 < negIncomeCount d then mapCol d "MonthlyIncome" absVal else d
  else d

/-- Stage 5 of the pipeline: standardize_data. -/
def standardize_data (d : Dataset) : Dataset :=
  stdIncome (stdGender (stdDept d))

/- ### Derive stage (create_derived_features) -/

/-- A bin edge for pd.cut: a finite number or the float infinity used as
    the top edge of the income bins. -/
inductive Edge where
  | fin : Frac → Edge
  | inf : Edge
deriving DecidableEq, Repr

/-- Strict order between edges, for the monotonicity check of pd.cut. -/
def edgeLtB : Edge → Edge → Bool
  | Edge.fin a, Edge.fin b => decide (a < b)
  | Edge.fin _, Edge.inf => true
  | Edge.inf, _ => false

/-- pd.cut requires its bin edges to increase strictly. -/
def binsMono : List Edge → Bool
  | e0 :: e1 :: es => edgeLtB e0 e1 && binsMono (e1 :: es)
  | _ => true

/-- Lower-edge test of a pd.cut interval: e < q. -/
def edgeLtQ : Edge → Frac → Prop
  | Edge.fin a, q => a < q
  | Edge.inf, _ => False

instance : (e : Edge) → (q : Frac) → Decidable (edgeLtQ e q)
  | Edge.fin a, q => inferInstanceAs (Decidable (a < q))
  | Edge.inf, _ => inferInstanceAs (Decidable False)

/-- Upper-edge test of a pd.cut interval: q ≤ e (default right=True). -/
def qLeEdge : Frac → Edge → Prop
  | q, Edge.fin b => q ≤ b
  | _, Edge.inf => True

instance : (q : Frac) → (e : Edge) → Decidable (qLeEdge q e)
  | q, Edge.fin b => inferInstanceAs (Decidable (q ≤ b))
  | _, Edge.inf => inferInstanceAs (Decidable True)

/-- pd.cut of one number against successive intervals (lo, hi]: the label
    of the first interval containing it, NaN when it falls outside. -/
def cutNum : List Edge → List String → Frac → Value
  | e0 :: e1 :: es, l :: ls, q =>
    if edgeLtQ e0 q ∧ qLeEdge q e1 then Value.str l else cutNum (e1 :: es) ls q
  | _, _, _ => Value.na

/-- pd.cut of one cell: a missing cell stays missing.  The stage only cuts
    the numeric Age and MonthlyIncome columns, so the string case is
    unreachable in the pipeline. -/
def cutVal (bins : List Edge) (labels : List String) (v : Value) : Value :=
  match v with
  | Value.num q => cutNum bins labels q
  | _ => Value.na

/-- The fixed age bins of the source: bins=[0, 30, 40, 50, 100]. -/
def ageBins : List Edge :=
  [Edge.fin 0, Edge.fin 30, Edge.fin 40, Edge.fin 50, Edge.fin 100]

/-- The fixed age labels of the source. -/
def ageLabels : List String :=
  ["Under 30", "30-40", "40-50", "50+"]

/-- The income labels of the source. -/
def incomeLabels : List String :=
  ["Low", "Medium", "High", "Very High"]

/-- Add (or overwrite) column c, computing each cell from its own row. -/
def addCol (d : Dataset) (c : String) (f : Row → Value) : Dataset :=
  { cols := if c ∈ d.cols then d.cols else d.cols ++ [c],
    rows := d.rows.map (fun r => setVal r c (f r)) }

/-- Series.quantile with the default linear interpolation, over the values
    already extracted from the non-missing cells. -/
def quantileLinear (l : List Frac) (p : Frac) : Option Frac :=
  let s := sortRats l
  let n := s.length
  if n = 0 then none
  else
    let h := p * Frac.ofNat (n - 1)
    let i := h.floor.toNat
    let x0 := s.getD i 0
    let x1 := s.getD (i + 1) x0
    some (x0 + (h - Frac.ofNat i) * (x1 - x0))

/-- AgeGroup substep of create_derived_features. -/
def deriveAge (d : Dataset) : Dataset :=
  if "Age" ∈ d.cols then
    addCol d "AgeGroup" (fun r => cutVal ageBins ageLabels (rowGet r "Age"))
  else d

/-- IncomeCategory substep of create_derived_features.  The quartile
    boundaries come from the current column; pd.cut raises ValueError when
    the resulting edges do not increase strictly (also when the quantiles
    are NaN because the column is entirely missing). -/
def deriveIncome (d : Dataset) : Except String Dataset :=
  if "MonthlyIncome" ∈ d.cols then
    let qs := (colVals d "MonthlyIncome").filterMap valToNum
    match quantileLinear qs (1/4), quantileLinear qs (1/2), quantileLinear qs (3/4) with
    | some q1, some q2, some q3 =>
      let bins := [Edge.fin 0, Edge.fin q1, Edge.fin q2, Edge.fin q3, Edge.inf]
      if binsMono bins then
        Except.ok (addCol d "IncomeCategory"
          (fun r => cutVal bins incomeLabels (rowGet r "MonthlyIncome")))
      else Except.error "ValueError: bins must increase monotonically"
    | _, _, _ => Except.error "ValueError: bins must increase monotonically"
  else Except.ok d

/-- Stage 6 of the pipeline: create_derived_features. -/
def create_derived_features (d : Dataset) : Except String Dataset :=
  deriveIncome (deriveAge d)

/- ### The in-memory pipeline (main), from Assess to Derive -/

/-- The dataset transformation main chains between Load and Persist:
    assess, deduplicate, impute, standardize, derive. -/
def runPipeline (d : Dataset) : Except String Dataset :=
  let d1 := (data_quality_assessment d []).1
  match handle_missing_values (remove_duplicates d1) with
  | Except.ok d2 => create_derived_features (standardize_data d2)
  | Except.error e => Except.error e

/- ### Amended specification definitions -/

/-- Age classification as the code actually bins it: pd.cut with the
    default right=True uses right-closed intervals (0,30], (30,40],
    (40,50], (50,100]; ages at most 0 or above 100 stay unclassified. -/
def ageGroupAmended (q : Frac) : Value :=
  if 0 < q ∧ q ≤ 30 then Value.str "Under 30"
  else if 30 < q ∧ q ≤ 40 then Value.str "30-40"
  else if 40 < q ∧ q ≤ 50 then Value.str "40-50"
  else if 50 < q ∧ q ≤ 100 then Value.str "50+"
  else Value.na

/- ### Concrete datasets used in counterexamples and witnesses -/

/-- Single row of age exactly 30. -/
def ageBoundaryInput : Dataset :=
  ⟨["Age"], [[("Age", Value.num 30)]]⟩

/-- Single row of age 29. -/
def ageWitnessInput : Dataset :=
  ⟨["Age"], [[("Age", Value.num 29)]]⟩

/-- What the Derive stage produces from ageWitnessInput. -/
def ageWitnessOutput : Dataset :=
  ⟨["Age", "AgeGroup"], [[("Age", Value.num 29), ("AgeGroup", Value.str "Under 30")]]⟩

/-- A MonthlyIncome column with a missing value and no JobRole column. -/
def noJobRoleInput : Dataset :=
  ⟨["MonthlyIncome"], [[("MonthlyIncome", Value.na)]]⟩

/-- A JobSatisfaction column whose values are all missing. -/
def allMissingSatisfactionInput : Dataset :=
  ⟨["JobRole", "MonthlyIncome", "JobSatisfaction"],
   [[("JobRole", Value.str "A"), ("MonthlyIncome", Value.num 1), ("JobSatisfaction", Value.na)]]⟩

/-- Job role A has every income missing; JobSatisfaction has a mode. -/
def missingGroupInput : Dataset :=
  ⟨["JobRole", "MonthlyIncome", "JobSatisfaction"],
   [[("JobRole", Value.str "A"), ("MonthlyIncome", Value.na), ("JobSatisfaction", Value.num 3)],
    [("JobRole", Value.str "A"), ("MonthlyIncome", Value.na), ("JobSatisfaction", Value.na)],
    [("JobRole", Value.str "B"), ("MonthlyIncome", Value.num 5), ("JobSatisfaction", Value.num 3)]]⟩

/-- Two rows identical except for the spelling of the department, plus two
    distinct rows that keep the income quartile edges strictly increasing. -/
def dupAfterCleaningInput : Dataset :=
  ⟨["Department", "Age", "MonthlyIncome"],
   [[("Department", Value.str "SALES"), ("Age", Value.num 35), ("MonthlyIncome", Value.num 3000)],
    [("Department", Value.str "Sales"), ("Age", Value.num 35), ("MonthlyIncome", Value.num 3000)],
    [("Department", Value.str "HR"), ("Age", Value.num 22), ("MonthlyIncome", Value.num 1000)],
    [("Department", Value.str "HR"), ("Age", Value.num 45), ("MonthlyIncome", Value.num 2000)]]⟩

/-- The income column of the spec example, incomes 1000 to 4000. -/
def quartileExampleInput : Dataset :=
  ⟨["MonthlyIncome"],
   [[("MonthlyIncome", Value.num 1000)], [("MonthlyIncome", Value.num 2000)],
    [("MonthlyIncome", Value.num 3000)], [("MonthlyIncome", Value.num 4000)]]⟩

/-- No missing income; one missing satisfaction value. -/
def noMissingIncomeInput : Dataset :=
  ⟨["MonthlyIncome", "JobSatisfaction"],
   [[("MonthlyIncome", Value.num 10), ("JobSatisfaction", Value.na)],
    [("MonthlyIncome", Value.num 20), ("JobSatisfaction", Value.num 3)]]⟩

/-- What the Impute stage produces from noMissingIncomeInput. -/
def noMissingIncomeOutput : Dataset :=
  ⟨["MonthlyIncome", "JobSatisfaction"],
   [[("MonthlyIncome", Value.num 10), ("JobSatisfaction", Value.num 3)],
    [("MonthlyIncome", Value.num 20), ("JobSatisfaction", Value.num 3)]]⟩

/-- A dataset with Department and Gender columns for the witness of the
    standardization property. -/
def standardizeWitnessInput : Dataset :=
  ⟨["Department", "Gender"],
   [[("Department", Value.str "SALES"), ("Gender", Value.str "m")],
    [("Department", Value.str "Engineering"), ("Gender", Value.str "F")]]⟩

/- ### Lemmas about deduplication -/

theorem not_mem_seen_of_mem_dropDupAux [DecidableEq α] {x : α} {l : List α} :
    ∀ {seen : List α}, x ∈ dropDupAux seen l → x ∉ seen := by
  induction l with
  | nil => intro seen h; simp [dropDupAux] at h
  | cons a as ih =>
    intro seen h
    by_cases ha : a ∈ seen
    · rw [dropDupAux, if_pos ha] at h
      exact ih h
    · rw [dropDupAux, if_neg ha] at h
      rcases List.mem_cons.mp h with h1 | h2
      · subst h1; exact ha
      · intro hx
        exact ih h2 (List.mem_cons_of_mem _ hx)

theorem nodup_dropDupAux [DecidableEq α] {l : List α} :
    ∀ {seen : List α}, (dropDupAux seen l).Nodup := by
  induction l with
  | nil => intro seen; simp [dropDupAux]
  | cons a as ih =>
    intro seen
    by_cases ha : a ∈ seen
    · rw [dropDupAux, if_pos ha]; exact ih
    · rw [dropDupAux, if_neg ha]
      refine List.nodup_cons.mpr ⟨?_, ih⟩
      intro hmem
      exact not_mem_seen_of_mem_dropDupAux hmem (List.mem_cons_self a seen)

theorem dropDupAux_eq_self [DecidableEq α] {l : List α} :
    ∀ {seen : List α}, l.Nodup → (∀ x ∈ l, x ∉ seen) → dropDupAux seen l = l := by
  induction l with
  | nil => intro seen _ _; rfl
  | cons a as ih =>
    intro seen hnd hdisj
    have ha : a ∉ seen := hdisj a (List.mem_cons_self a as)
    rw [dropDupAux, if_neg ha]
    congr 1
    refine ih (List.nodup_cons.mp hnd).2 ?_
    intro x hx hmem
    rcases List.mem_cons.mp hmem with h1 | h2
    · subst h1; exact (List.nodup_cons.mp hnd).1 hx
    · exact hdisj x (List.mem_cons_of_mem _ hx) h2

theorem length_dropDupAux_le [DecidableEq α] {l : List α} :
    ∀ {seen : List α}, (dropDupAux seen l).length ≤ l.length := by
  induction l with
  | nil => intro seen; simp [dropDupAux]
  | cons a as ih =>
    intro seen
    by_cases ha : a ∈ seen
    · rw [dropDupAux, if_pos ha]
      exact Nat.le_succ_of_le ih
    · rw [dropDupAux, if_neg ha, List.length_cons, List.length_cons]
      exact Nat.succ_le_succ ih

theorem dropDupAux_sublist [DecidableEq α] {l : List α} :
    ∀ {seen : List α}, List.Sublist (dropDupAux seen l) l := by
  induction l with
  | nil => intro seen; rw [dropDupAux]
  | cons a as ih =>
    intro seen
    by_cases ha : a ∈ seen
    · rw [dropDupAux, if_pos ha]
      exact List.Sublist.cons a ih
    · rw [dropDupAux, if_neg ha]
      exact List.Sublist.cons₂ a ih

theorem dropDupAux_congr [DecidableEq α] {l : List α} :
    ∀ {s1 s2 : List α}, (∀ a, a ∈ s1 ↔ a ∈ s2) → dropDupAux s1 l = dropDupAux s2 l := by
  induction l with
  | nil => intro s1 s2 _; rfl
  | cons a as ih =>
    intro s1 s2 hiff
    by_cases ha : a ∈ s1
    · rw [dropDupAux, if_pos ha, dropDupAux, if_pos ((hiff a).mp ha)]
      exact ih hiff
    · have ha2 : a ∉ s2 := fun h => ha ((hiff a).mpr h)
      rw [dropDupAux, if_neg ha, dropDupAux, if_neg ha2]
      congr 1
      refine ih ?_
      intro b
      simp only [List.mem_cons]
      exact or_congr Iff.rfl (hiff b)

theorem dropDupAux_cons_eq_filter [DecidableEq α] {x : α} {l : List α} :
    ∀ {seen : List α},
      dropDupAux (x :: seen) l = dropDupAux seen (l.filter (fun y => !(y == x))) := by
  induction l with
  | nil => intro seen; rfl
  | cons a as ih =>
    intro seen
    by_cases hax : a = x
    · subst hax
      have hb : (!(a == a)) = false := by simp
      rw [dropDupAux, if_pos (List.mem_cons_self a seen), List.filter_cons, hb]
      simp only [Bool.false_eq_true, if_false]
      exact ih
    · have hb : (!(a == x)) = true := by simp [hax]
      rw [List.filter_cons, hb]
      simp only [if_true]
      by_cases has : a ∈ seen
      · rw [dropDupAux, if_pos (List.mem_cons_of_mem x has), dropDupAux, if_pos has]
        exact ih
      · have hnx : a ∉ x :: seen := by
          intro h
          rcases List.mem_cons.mp h with h1 | h2
          · exact hax h1
          · exact has h2
        rw [dropDupAux, if_neg hnx, dropDupAux, if_neg has]
        congr 1
        calc dropDupAux (a :: x :: seen) as
            = dropDupAux (x :: a :: seen) as := by
              refine dropDupAux_congr ?_
              intro b
              simp only [List.mem_cons]
              tauto
          _ = dropDupAux (a :: seen) (as.filter (fun y => !(y == x))) := ih

theorem dropDupList_eq_keepFirstOccurrences [DecidableEq α] :
    ∀ l : List α, dropDupList l = keepFirstOccurrences l
  | [] => by rw [keepFirstOccurrences]; rfl
  | x :: xs => by
    have hx : x ∉ ([] : List α) := List.not_mem_nil x
    show dropDupAux [] (x :: xs) = _
    rw [dropDupAux, if_neg hx, keepFirstOccurrences]
    congr 1
    rw [dropDupAux_cons_eq_filter]
    exact dropDupList_eq_keepFirstOccurrences (xs.filter (fun y => !(y == x)))
termination_by l => l.length
decreasing_by
  simp only [List.length_cons]
  exact Nat.lt_succ_of_le (List.length_filter_le _ _)

/-- C6: deduplication is idempotent and never increases the row count. -/
theorem remove_duplicates_idempotent_and_shrinking (d : Dataset) :
    remove_duplicates (remove_duplicates d) = remove_duplicates d ∧
    (remove_duplicates d).rows.length ≤ d.rows.length := by
  constructor
  · have h : dropDupList (dropDupList d.rows) = dropDupList d.rows :=
      dropDupAux_eq_self nodup_dropDupAux (fun x _ => List.not_mem_nil x)
    simp [remove_duplicates, h]
  · exact length_dropDupAux_le

/-- C9: deduplication removes exactly the rows duplicating an earlier row,
    keeping the first occurrence of each distinct row, and the survivors
    form a subsequence of the input, so their relative order is preserved. -/
theorem remove_duplicates_first_occurrence_stable (d : Dataset) :
    (remove_duplicates d).rows = keepFirstOccurrences d.rows ∧
    List.Sublist (remove_duplicates d).rows d.rows := by
  exact ⟨dropDupList_eq_keepFirstOccurrences d.rows, dropDupAux_sublist⟩

/- ### Lemmas about row and column access -/

theorem rowGet_setVal_self (r : Row) (c : String) (v : Value) :
    rowGet (setVal r c v) c = v := by
  induction r with
  | nil => simp [setVal, rowGet]
  | cons kv r' ih =>
    obtain ⟨k, w⟩ := kv
    by_cases hk : k = c
    · rw [setVal, if_pos hk, rowGet, if_pos hk]
    · rw [setVal, if_neg hk, rowGet, if_neg hk]
      exact ih

theorem rowGet_setVal_ne (r : Row) {c c' : String} (h : c' ≠ c) (v : Value) :
    rowGet (setVal r c v) c' = rowGet r c' := by
  induction r with
  | nil =>
    show rowGet [(c, v)] c' = rowGet [] c'
    simp only [rowGet]
    rw [if_neg (fun hh : c = c' => h hh.symm)]
  | cons kv r' ih =>
    obtain ⟨k, w⟩ := kv
    by_cases hk : k = c
    · have hkc : ¬ (k = c') := fun hh => h (hh.symm.trans hk)
      rw [setVal, if_pos hk, rowGet, rowGet, if_neg hkc, if_neg hkc]
    · rw [setVal, if_neg hk, rowGet, rowGet]
      by_cases hk' : k = c'
      · rw [if_pos hk', if_pos hk']
      · rw [if_neg hk', if_neg hk']
        exact ih

theorem cols_mapCol (d : Dataset) (c : String) (f : Value → Value) :
    (mapCol d c f).cols = d.cols := rfl

theorem colVals_mapCol_self (d : Dataset) {c : String} (f : Value → Value) (h : c ∈ d.cols) :
    colVals (mapCol d c f) c = (colVals d c).map f := by
  unfold colVals mapCol
  rw [if_pos h, if_pos h, List.map_map, List.map_map]
  congr 1
  funext r
  exact rowGet_setVal_self r c (f (rowGet r c))

theorem colVals_mapCol_ne (d : Dataset) {c c' : String} (f : Value → Value) (h : c' ≠ c) :
    colVals (mapCol d c f) c' = colVals d c' := by
  unfold colVals mapCol
  by_cases hc : c' ∈ d.cols
  · rw [if_pos hc, if_pos hc, List.map_map]
    congr 1
    funext r
    exact rowGet_setVal_ne r h (f (rowGet r c))
  · rw [if_neg hc, if_neg hc]

theorem colVals_of_not_mem (d : Dataset) {c : String} (h : c ∉ d.cols) :
    colVals d c = [] := by
  unfold colVals
  rw [if_neg h]

/- ### C10: the Assess stage does not mutate the dataset -/

/-- C10: data_quality_assessment returns the dataset unchanged; it only
    computes the duplicate count and the per-column missing counts and
    appends the corresponding entries to the processing log. -/
theorem data_quality_assessment_pure (d : Dataset) (log : List String) :
    (data_quality_assessment d log).1 = d ∧
    (data_quality_assessment d log).2 =
      log ++ ("Found " ++ toString (duplicateCount d) ++ " duplicate rows") ::
        (if missingReport d = [] then [] else "Missing values found:" :: missingReport d) :=
  ⟨rfl, rfl⟩

/- ### C2: a missing JobRole column crashes the Impute stage -/

/-- C2 (code evaluated at the failing input): on a dataset that has a
    MonthlyIncome column with a missing value but no JobRole column, the
    Impute stage raises KeyError from the groupby instead of degrading to
    a no-op. -/
theorem impute_missing_jobrole_raises :
    handle_missing_values noJobRoleInput = Except.error "KeyError: JobRole" := rfl

/- ### C3: an all-missing JobSatisfaction column crashes the Impute stage -/

/-- C3 counterexample: with JobRole, MonthlyIncome and JobSatisfaction all
    present and every JobSatisfaction value missing, the Impute stage
    raises (mode() of the column is empty and the [0] lookup fails), so it
    is not true that it never raises on datasets with the relevant columns. -/
theorem impute_all_missing_satisfaction_raises :
    handle_missing_values allMissingSatisfactionInput = Except.error "KeyError: 0" := rfl

/- ### C5: income categories from the quartiles of the current column -/

/-- C5: on the income column 1000, 2000, 3000, 4000 the quartile
    boundaries computed from the current dataset are 1750, 2500 and 3250,
    and the Derive stage labels the income-1000 row Low and the
    income-4000 row Very High. -/
theorem income_category_from_quartiles :
    quantileLinear ((colVals quartileExampleInput "MonthlyIncome").filterMap valToNum) (1/4)
        = some 1750 ∧
    quantileLinear ((colVals quartileExampleInput "MonthlyIncome").filterMap valToNum) (1/2)
        = some 2500 ∧
    quantileLinear ((colVals quartileExampleInput "MonthlyIncome").filterMap valToNum) (3/4)
        = some 3250 ∧
    (create_derived_features quartileExampleInput).map
        (fun d => (rowGet (d.rows.getD 0 []) "IncomeCategory",
                   rowGet (d.rows.getD 3 []) "IncomeCategory"))
      = Except.ok (Value.str "Low", Value.str "Very High") :=
  ⟨rfl, rfl, rfl, rfl⟩

/- ### C4: the full pipeline can emit a dataset with duplicate rows -/

/-- C4: there is an input dataset with no exact duplicates (deduplication
    leaves it unchanged) whose final pipeline output contains two exactly
    identical rows, because standardization maps SALES and Sales to the
    same label after deduplication has already run. -/
theorem pipeline_output_can_contain_duplicates :
    ∃ D : Dataset, remove_duplicates D = D ∧
      (runPipeline D).map hasDuplicateRows = Except.ok true :=
  ⟨dupAfterCleaningInput, rfl, rfl⟩

/- ### C1: the age bins are right-closed, not left-closed -/

/-- C1 counterexample: a row of age exactly 30 is labeled Under 30 by the
    Derive stage, not 30-40 as the claimed half-open bin [30,40) requires
    (pd.cut defaults to right-closed intervals). -/
theorem age_thirty_labeled_under_30 :
    (create_derived_features ageBoundaryInput).map
        (fun d => rowGet (d.rows.getD 0 []) "AgeGroup")
      = Except.ok (Value.str "Under 30") ∧
    Value.str "Under 30" ≠ Value.str "30-40" :=
  ⟨rfl, by decide⟩

/- ### List indexing helpers -/

theorem getD_map_rows (g : Row → Row) (l : List Row) (i : Nat) (h : i < l.length) :
    (l.map g).getD i [] = g (l.getD i []) := by
  induction l generalizing i with
  | nil => simp at h
  | cons a as ih =>
    cases i with
    | zero => rfl
    | succ j => exact ih j (Nat.lt_of_succ_lt_succ h)

theorem getD_nil_of_le (l : List Row) (i : Nat) (h : l.length ≤ i) :
    l.getD i [] = [] := by
  induction l generalizing i with
  | nil => cases i <;> rfl
  | cons a as ih =>
    cases i with
    | zero => simp at h
    | succ j => exact ih j (Nat.le_of_succ_le_succ h)

theorem getD_mem_of_lt (l : List Row) (i : Nat) (h : i < l.length) :
    l.getD i [] ∈ l := by
  induction l generalizing i with
  | nil => simp at h
  | cons a as ih =>
    cases i with
    | zero => exact List.mem_cons_self a as
    | succ j => exact List.mem_cons_of_mem a (ih j (Nat.lt_of_succ_lt_succ h))

theorem rows_length_mapCol (d : Dataset) (c : String) (f : Value → Value) :
    (mapCol d c f).rows.length = d.rows.length :=
  List.length_map _ _

theorem rows_length_addCol (d : Dataset) (c : String) (f : Row → Value) :
    (addCol d c f).rows.length = d.rows.length :=
  List.length_map _ _

theorem rowGet_mapCol_getD_ne (d : Dataset) {c c' : String} (f : Value → Value)
    (h : c' ≠ c) (i : Nat) :
    rowGet ((mapCol d c f).rows.getD i []) c' = rowGet (d.rows.getD i []) c' := by
  by_cases hi : i < d.rows.length
  · have hrowEq : (mapCol d c f).rows.getD i []
        = setVal (d.rows.getD i []) c (f (rowGet (d.rows.getD i []) c)) :=
      getD_map_rows _ _ _ hi
    rw [hrowEq]
    exact rowGet_setVal_ne _ h _
  · rw [getD_nil_of_le _ _ (by rw [rows_length_mapCol]; exact Nat.le_of_not_lt hi),
        getD_nil_of_le _ _ (Nat.le_of_not_lt hi)]

theorem rowGet_addCol_getD_ne (d : Dataset) {c c' : String} (f : Row → Value)
    (h : c' ≠ c) (i : Nat) :
    rowGet ((addCol d c f).rows.getD i []) c' = rowGet (d.rows.getD i []) c' := by
  by_cases hi : i < d.rows.length
  · have hrowEq : (addCol d c f).rows.getD i []
        = setVal (d.rows.getD i []) c (f (d.rows.getD i [])) :=
      getD_map_rows _ _ _ hi
    rw [hrowEq]
    exact rowGet_setVal_ne _ h _
  · rw [getD_nil_of_le _ _ (by rw [rows_length_addCol]; exact Nat.le_of_not_lt hi),
        getD_nil_of_le _ _ (Nat.le_of_not_lt hi)]

theorem rowGet_addCol_getD_self (d : Dataset) (c : String) (f : Row → Value)
    {i : Nat} (hi : i < d.rows.length) :
    rowGet ((addCol d c f).rows.getD i []) c = f (d.rows.getD i []) := by
  have hrowEq : (addCol d c f).rows.getD i []
      = setVal (d.rows.getD i []) c (f (d.rows.getD i [])) :=
    getD_map_rows _ _ _ hi
  rw [hrowEq]
  exact rowGet_setVal_self _ _ _

/- ### C7: standardization collapses the mapping tables -/

theorem lookup_eq_none_of_not_mem {β : Type} (m : List (String × β)) (s : String)
    (h : s ∉ m.map Prod.fst) : m.lookup s = none := by
  induction m with
  | nil => rfl
  | cons kv t ih =>
    obtain ⟨k, b⟩ := kv
    simp only [List.map_cons, List.mem_cons] at h
    push_neg at h
    have hk : (s == k) = false := beq_eq_false_iff_ne.mpr h.1
    simp only [List.lookup, hk]
    exact ih h.2

theorem colVals_stdDept_dept (d : Dataset) :
    colVals (stdDept d) "Department" = (colVals d "Department").map (applyMapping dept_mapping) := by
  unfold stdDept
  by_cases h : "Department" ∈ d.cols
  · rw [if_pos h]
    exact colVals_mapCol_self d _ h
  · rw [if_neg h, colVals_of_not_mem d h]
    rfl

theorem colVals_stdGender_gender (d : Dataset) :
    colVals (stdGender d) "Gender" = (colVals d "Gender").map (applyMapping gender_mapping) := by
  unfold stdGender
  by_cases h : "Gender" ∈ d.cols
  · rw [if_pos h]
    exact colVals_mapCol_self d _ h
  · rw [if_neg h, colVals_of_not_mem d h]
    rfl

theorem colVals_stdDept_ne (d : Dataset) {c : String} (h : c ≠ "Department") :
    colVals (stdDept d) c = colVals d c := by
  unfold stdDept
  split
  · exact colVals_mapCol_ne d _ h
  · rfl

theorem colVals_stdGender_ne (d : Dataset) {c : String} (h : c ≠ "Gender") :
    colVals (stdGender d) c = colVals d c := by
  unfold stdGender
  split
  · exact colVals_mapCol_ne d _ h
  · rfl

theorem colVals_stdIncome_ne (d : Dataset) {c : String} (h : c ≠ "MonthlyIncome") :
    colVals (stdIncome d) c = colVals d c := by
  unfold stdIncome
  split
  · split
    · exact colVals_mapCol_ne d _ h
    · rfl
  · rfl

/-- C7: the Standardize stage maps every Department column value through
    the department table and every Gender column value through the gender
    table; each table entry goes to its canonical label, while strings
    outside the table, numbers and missing cells pass through unchanged. -/
theorem standardize_mapping_tables (d : Dataset) :
    colVals (standardize_data d) "Department"
        = (colVals d "Department").map (applyMapping dept_mapping) ∧
    colVals (standardize_data d) "Gender"
        = (colVals d "Gender").map (applyMapping gender_mapping) ∧
    applyMapping dept_mapping (Value.str "SALES") = Value.str "Sales" ∧
    applyMapping dept_mapping (Value.str "sales") = Value.str "Sales" ∧
    applyMapping dept_mapping (Value.str "RESEARCH & DEVELOPMENT")
        = Value.str "Research & Development" ∧
    applyMapping dept_mapping (Value.str "research & development")
        = Value.str "Research & Development" ∧
    applyMapping dept_mapping (Value.str "HUMAN RESOURCES") = Value.str "Human Resources" ∧
    applyMapping dept_mapping (Value.str "human resources") = Value.str "Human Resources" ∧
    applyMapping gender_mapping (Value.str "M") = Value.str "Male" ∧
    applyMapping gender_mapping (Value.str "m") = Value.str "Male" ∧
    applyMapping gender_mapping (Value.str "F") = Value.str "Female" ∧
    applyMapping gender_mapping (Value.str "f") = Value.str "Female" ∧
    (∀ s : String, s ∉ dept_mapping.map Prod.fst →
      applyMapping dept_mapping (Value.str s) = Value.str s) ∧
    (∀ s : String, s ∉ gender_mapping.map Prod.fst →
      applyMapping gender_mapping (Value.str s) = Value.str s) ∧
    (∀ q : Frac, applyMapping dept_mapping (Value.num q) = Value.num q) ∧
    applyMapping dept_mapping Value.na = Value.na := by
  refine ⟨?_, ?_, rfl, rfl, rfl, rfl, rfl, rfl, rfl, rfl, rfl, rfl, ?_, ?_, fun q => rfl, rfl⟩
  · rw [standardize_data, colVals_stdIncome_ne _ (by decide),
      colVals_stdGender_ne _ (by decide), colVals_stdDept_dept]
  · rw [standardize_data, colVals_stdIncome_ne _ (by decide),
      colVals_stdGender_gender, colVals_stdDept_ne _ (by decide)]
  · intro s hs
    simp only [applyMapping, lookup_eq_none_of_not_mem _ _ hs]
  · intro s hs
    simp only [applyMapping, lookup_eq_none_of_not_mem _ _ hs]

/-- Witness for C7 at a concrete dataset and a concrete unmapped value. -/
theorem standardize_mapping_tables_witness :
    applyMapping dept_mapping (Value.str "Engineering") = Value.str "Engineering" ∧
    colVals (standardize_data standardizeWitnessInput) "Department"
        = (colVals standardizeWitnessInput "Department").map (applyMapping dept_mapping) := by
  obtain ⟨h1, h2, h3, h4, h5, h6, h7, h8, h9, h10, h11, h12, h13, h14, h15, h16⟩ :=
    standardize_mapping_tables standardizeWitnessInput
  exact ⟨h13 "Engineering" (by decide), h1⟩

/- ### C8: Impute is a no-op on an income column with nothing to fill -/

/-- C8: when the MonthlyIncome column has no missing values, the Impute
    stage leaves that column exactly as it was (the fill branch is guarded
    by the missing count, and the JobSatisfaction branch touches a
    different column). -/
theorem impute_noop_when_no_missing_income (d d2 : Dataset)
    (h : handle_missing_values d = Except.ok d2)
    (hna : countNa (colVals d "MonthlyIncome") = 0) :
    colVals d2 "MonthlyIncome" = colVals d "MonthlyIncome" := by
  have h1 : imputeIncome d = Except.ok d := by
    unfold imputeIncome
    by_cases hm : "MonthlyIncome" ∈ d.cols
    · rw [if_pos hm, hna]
      simp
    · rw [if_neg hm]
  have h2 : imputeSatisfaction d = Except.ok d2 := by
    unfold handle_missing_values at h
    rw [h1] at h
    exact h
  unfold imputeSatisfaction at h2
  split at h2
  · split at h2
    · split at h2
      · rw [← Except.ok.inj h2]
        exact colVals_mapCol_ne d _ (by decide)
      · exact Except.noConfusion h2
    · rw [← Except.ok.inj h2]
  · rw [← Except.ok.inj h2]

/-- Witness for C8: a two-row dataset whose incomes are complete and whose
    JobSatisfaction column still gets its one missing value filled. -/
theorem impute_noop_when_no_missing_income_witness :
    colVals noMissingIncomeOutput "MonthlyIncome"
      = colVals noMissingIncomeInput "MonthlyIncome" :=
  impute_noop_when_no_missing_income noMissingIncomeInput noMissingIncomeOutput rfl rfl

/- ### C1 amended: the age bins as pd.cut actually evaluates them -/

theorem deriveIncome_ok_cases {d d2 : Dataset} (h : deriveIncome d = Except.ok d2) :
    d2 = d ∨ ∃ g, d2 = addCol d "IncomeCategory" g := by
  unfold deriveIncome at h
  split at h
  · simp only [] at h
    split at h
    · split at h
      · right
        exact ⟨_, (Except.ok.inj h).symm⟩
      · exact Except.noConfusion h
    · exact Except.noConfusion h
  · left
    exact (Except.ok.inj h).symm

theorem rowGet_ageGroup_addCol (d : Dataset) (i : Nat) :
    rowGet ((addCol d "AgeGroup"
        (fun r => cutVal ageBins ageLabels (rowGet r "Age"))).rows.getD i []) "AgeGroup"
      = cutVal ageBins ageLabels (rowGet (d.rows.getD i []) "Age") := by
  by_cases hi : i < d.rows.length
  · rw [rowGet_addCol_getD_self d _ _ hi]
  · rw [getD_nil_of_le _ _ (by rw [rows_length_addCol]; exact Nat.le_of_not_lt hi),
        getD_nil_of_le _ _ (Nat.le_of_not_lt hi)]
    rfl

theorem cutNum_ageBins (q : Frac) :
    cutNum ageBins ageLabels q = ageGroupAmended q := by
  unfold ageBins ageLabels ageGroupAmended
  simp only [cutNum, edgeLtQ, qLeEdge]

/-- C1 amended: the Derive stage assigns AgeGroup by cutting the age with
    the right-closed bins (0,30], (30,40], (40,50], (50,100]: age 29 and
    age 30 both map to Under 30, age 100 maps to 50+, and ages at most 0
    or above 100 (in particular negative ages) stay unclassified. -/
theorem age_groups_right_closed (d d2 : Dataset)
    (h : create_derived_features d = Except.ok d2)
    (hAge : "Age" ∈ d.cols) :
    (∀ i : Nat, rowGet (d2.rows.getD i []) "AgeGroup"
        = cutVal ageBins ageLabels (rowGet (d.rows.getD i []) "Age")) ∧
    (∀ q : Frac, cutVal ageBins ageLabels (Value.num q) = ageGroupAmended q) := by
  constructor
  · intro i
    unfold create_derived_features at h
    have hd1 : deriveAge d
        = addCol d "AgeGroup" (fun r => cutVal ageBins ageLabels (rowGet r "Age")) := by
      unfold deriveAge
      rw [if_pos hAge]
    rw [hd1] at h
    rcases deriveIncome_ok_cases h with h2 | ⟨g, h2⟩
    · rw [h2]
      exact rowGet_ageGroup_addCol d i
    · rw [h2, rowGet_addCol_getD_ne _ _ (by decide) i]
      exact rowGet_ageGroup_addCol d i
  · intro q
    exact cutNum_ageBins q

/-- Witness for the amended C1 at a one-row dataset of age 29 and at the
    boundary age 30. -/
theorem age_groups_right_closed_witness :
    rowGet (ageWitnessOutput.rows.getD 0 []) "AgeGroup"
        = cutVal ageBins ageLabels (rowGet (ageWitnessInput.rows.getD 0 []) "Age") ∧
    cutVal ageBins ageLabels (Value.num 30) = ageGroupAmended 30 := by
  have h := age_groups_right_closed ageWitnessInput ageWitnessOutput rfl (by decide)
  exact ⟨h.1 0, h.2 30⟩

/- ### C3 amended: undefined grouped medians keep the cell missing, and
   the stage only raises when the mode of JobSatisfaction is undefined -/

theorem dropDupList_ne_nil [DecidableEq α] {x : α} {xs : List α} :
    dropDupList (x :: xs) ≠ [] := by
  show dropDupAux [] (x :: xs) ≠ []
  rw [dropDupAux, if_neg (List.not_mem_nil x)]
  exact List.cons_ne_nil _ _

theorem mode0_isSome_of_filter_ne_nil {vs : List Value}
    (h : vs.filter (fun v => !(v == Value.na)) ≠ []) : ∃ m, mode0 vs = some m := by
  unfold mode0
  cases hl : vs.filter (fun v => !(v == Value.na)) with
  | nil => exact absurd hl h
  | cons a as =>
    exact ⟨_, rfl⟩

theorem colVals_fillIncomeByRole_ne (d : Dataset) {c : String} (h : c ≠ "MonthlyIncome") :
    colVals (fillIncomeByRole d) c = colVals d c := by
  unfold colVals fillIncomeByRole
  by_cases hc : c ∈ d.cols
  · rw [if_pos hc, if_pos hc, List.map_map]
    congr 1
    funext r
    exact rowGet_setVal_ne r h _
  · rw [if_neg hc, if_neg hc]

theorem rowGet_fillIncomeByRole (d : Dataset) {i : Nat} (hi : i < d.rows.length) :
    rowGet ((fillIncomeByRole d).rows.getD i []) "MonthlyIncome"
      = imputedIncome d (d.rows.getD i []) := by
  have hrowEq : (fillIncomeByRole d).rows.getD i []
      = setVal (d.rows.getD i []) "MonthlyIncome" (imputedIncome d (d.rows.getD i [])) :=
    getD_map_rows _ _ _ hi
  rw [hrowEq, rowGet_setVal_self]

theorem imputedIncome_na_of_group_missing (d : Dataset) (r : Row)
    (hkey : rowGet r "JobRole" ≠ Value.na)
    (hrna : rowGet r "MonthlyIncome" = Value.na)
    (hgroup : ∀ r2 ∈ d.rows, rowGet r2 "JobRole" = rowGet r "JobRole" →
      rowGet r2 "MonthlyIncome" = Value.na) :
    imputedIncome d r = Value.na := by
  have hnil : ((d.rows.filter
      (fun r2 => rowGet r2 "JobRole" == rowGet r "JobRole")).map
      (fun r2 => rowGet r2 "MonthlyIncome")).filterMap valToNum = [] := by
    rw [List.filterMap_eq_nil_iff]
    intro v hv
    obtain ⟨r2, hr2, hvr⟩ := List.mem_map.mp hv
    obtain ⟨hr2m, hr2b⟩ := List.mem_filter.mp hr2
    have heq : rowGet r2 "JobRole" = rowGet r "JobRole" := of_decide_eq_true hr2b
    rw [← hvr, hgroup r2 hr2m heq]
    rfl
  unfold imputedIncome
  rw [if_neg hkey, if_pos hrna, hnil]
  rfl

theorem countNa_pos_of_na_at (d : Dataset) {i : Nat} (hi : i < d.rows.length)
    (hMI : "MonthlyIncome" ∈ d.cols)
    (hrna : rowGet (d.rows.getD i []) "MonthlyIncome" = Value.na) :
    0 < countNa (colVals d "MonthlyIncome") := by
  unfold countNa colVals
  rw [if_pos hMI]
  refine List.countP_pos_iff.mpr ⟨Value.na, ?_, rfl⟩
  exact List.mem_map.mpr ⟨d.rows.getD i [], getD_mem_of_lt _ _ hi, hrna⟩

theorem imputeSatisfaction_ok (dI : Dataset)
    (hJS : "JobSatisfaction" ∈ dI.cols → 0 < countNa (colVals dI "JobSatisfaction") →
      (colVals dI "JobSatisfaction").filter (fun v => !(v == Value.na)) ≠ []) :
    ∃ d2, imputeSatisfaction dI = Except.ok d2 ∧
      ∀ i : Nat, rowGet (d2.rows.getD i []) "MonthlyIncome"
        = rowGet (dI.rows.getD i []) "MonthlyIncome" := by
  unfold imputeSatisfaction
  by_cases hjs : "JobSatisfaction" ∈ dI.cols
  · rw [if_pos hjs]
    by_cases hcnt : 0 < countNa (colVals dI "JobSatisfaction")
    · rw [if_pos hcnt]
      obtain ⟨m, hm⟩ := mode0_isSome_of_filter_ne_nil (hJS hjs hcnt)
      rw [hm]
      refine ⟨_, rfl, ?_⟩
      intro i
      exact rowGet_mapCol_getD_ne dI _ (by decide) i
    · rw [if_neg hcnt]
      exact ⟨dI, rfl, fun i => rfl⟩
  · rw [if_neg hjs]
    exact ⟨dI, rfl, fun i => rfl⟩

/-- C3 amended: with the JobRole column present, and provided the
    JobSatisfaction column is not present-with-missing-values while
    entirely missing (the one situation where mode()[0] raises, see the
    counterexample), the Impute stage succeeds; and every row whose job
    role group has all of its incomes missing keeps its income missing
    (the group median is undefined, so fillna receives NaN). -/
theorem impute_missing_group_kept_and_no_crash (d : Dataset)
    (hJR : "JobRole" ∈ d.cols)
    (hJS : "JobSatisfaction" ∈ d.cols → 0 < countNa (colVals d "JobSatisfaction") →
      (colVals d "JobSatisfaction").filter (fun v => !(v == Value.na)) ≠ []) :
    ∃ d2, handle_missing_values d = Except.ok d2 ∧
      ∀ i : Nat, i < d.rows.length →
        "MonthlyIncome" ∈ d.cols →
        rowGet (d.rows.getD i []) "JobRole" ≠ Value.na →
        (∀ r2 ∈ d.rows, rowGet r2 "JobRole" = rowGet (d.rows.getD i []) "JobRole" →
          rowGet r2 "MonthlyIncome" = Value.na) →
        rowGet (d2.rows.getD i []) "MonthlyIncome" = Value.na := by
  by_cases hP : "MonthlyIncome" ∈ d.cols ∧ 0 < countNa (colVals d "MonthlyIncome")
  · have hII : imputeIncome d = Except.ok (fillIncomeByRole d) := by
      unfold imputeIncome
      rw [if_pos hP.1, if_pos hP.2, if_pos hJR]
    have hjsv : colVals (fillIncomeByRole d) "JobSatisfaction" = colVals d "JobSatisfaction" :=
      colVals_fillIncomeByRole_ne d (by decide)
    obtain ⟨d2, hok, hpres⟩ := imputeSatisfaction_ok (fillIncomeByRole d) (by
      intro h1 h2
      rw [hjsv] at h2
      rw [hjsv]
      exact hJS h1 h2)
    refine ⟨d2, ?_, ?_⟩
    · unfold handle_missing_values
      rw [hII]
      exact hok
    · intro i hi hMI hkey hgroup
      rw [hpres i, rowGet_fillIncomeByRole d hi]
      exact imputedIncome_na_of_group_missing d _ hkey
        (hgroup _ (getD_mem_of_lt _ _ hi) rfl) hgroup
  · have hII : imputeIncome d = Except.ok d := by
      unfold imputeIncome
      by_cases hm : "MonthlyIncome" ∈ d.cols
      · rw [if_pos hm, if_neg (fun hc => hP ⟨hm, hc⟩)]
      · rw [if_neg hm]
    obtain ⟨d2, hok, hpres⟩ := imputeSatisfaction_ok d hJS
    refine ⟨d2, ?_, ?_⟩
    · unfold handle_missing_values
      rw [hII]
      exact hok
    · intro i hi hMI hkey hgroup
      exact absurd ⟨hMI, countNa_pos_of_na_at d hi hMI
        (hgroup _ (getD_mem_of_lt _ _ hi) rfl)⟩ hP

/-- Witness for the amended C3: job role A has both of its incomes
    missing; the stage succeeds and row 0 keeps its income missing. -/
theorem impute_missing_group_witness :
    ∃ d2, handle_missing_values missingGroupInput = Except.ok d2 ∧
      rowGet (d2.rows.getD 0 []) "MonthlyIncome" = Value.na := by
  obtain ⟨d2, hok, hpt⟩ := impute_missing_group_kept_and_no_crash missingGroupInput
    (by decide) (fun _ _ => by decide)
  exact ⟨d2, hok, hpt 0 (by decide) (by decide) (by decide) (by decide)⟩

end HRProc
